import Mathlib

/-!
Verification of the plan-report parser (`src/main.rs`) of the `vp` repository.

Modelling conventions (shallow embedding of the Rust code):

* Standard input is modelled as a `List String`, one element per call to
  `read_line`; each element is the raw line exactly as `read_line` yields it,
  i.e. normally including its trailing newline character.  End of stream is
  the end of the list (Rust's `read_line` returns `Ok(0)` there and leaves the
  buffer untouched).  I/O errors of the stream itself are not modelled: the
  input is a deterministic list, so the `.context("expecting Action detail")`
  branch that only fires on a failed read is unreachable in the model (kept as
  the constructor `ParseError.missingDetail` for documentation).
* Rust `&str` values are modelled as `String`; all primitive operations
  (`starts_with`, `split_at`, `trim`, `split_whitespace`, `strip_prefix`,
  `strip_suffix`, `split`) are defined below on the underlying `List Char`.
  Rust's byte indices are modelled as character indices; the two coincide on
  ASCII input, which is the only alphabet the report format uses.
* `str::split_at` panics when the index is out of bounds.  A Rust panic is an
  abnormal termination distinct from the `anyhow` error results; it is
  modelled by the dedicated error value `ParseError.panicked`.
* The Rust field `Action.content` is a `String` built exclusively by
  `push_str` of whole raw lines; it is modelled as the `List String` of the
  pushed lines (the Rust string is the concatenation of that list).
* The `cursive` UI (everything after the parse loop in `main`) is the
  out-of-scope presentation layer; `mainParse` returns the `actions` vector
  that `main` hands to it, or the first error / panic.
-/

deriving instance DecidableEq for Except

namespace VP

/-- The five change kinds, as in the Rust `enum ActionType`. -/
inductive ActionType where
  | Create
  | Update
  | Destroy
  | DestroyThenCreate
  | DuplicateThenRemove
deriving DecidableEq

/-- The structured record, as in the Rust `struct Action`.  `content` is the
list of raw lines pushed by `push_str` (see the header comment). -/
structure Action where
  typ : ActionType
  reference : String
  resource : String
  name : String
  content : List String
deriving DecidableEq

/-- The ways a run can abort.  The first six mirror the `anyhow` messages of
the source; `panicked` models a Rust panic in `str::split_at`. -/
inductive ParseError where
  | missingReference       -- "expecting resource reference"
  | missingDetail          -- "expecting Action detail" (failed read only; unreachable here)
  | unexpectedType (s : String)  -- "unexpected Action type: {s}"
  | missingBeginQuote      -- "expecting beginning quote"
  | missingEndQuote        -- "expecting ending quote"
  | missingResource        -- "expecting resource" (unreachable: split yields at least one part)
  | missingName            -- "expecting name"
  | panicked               -- index out of bounds in str::split_at
deriving DecidableEq

/-- `isPre p l`: is `p` a prefix of `l`?  (Model of Rust `str::starts_with`.) -/
def isPre : List Char → List Char → Bool
  | [], _ => true
  | _ :: _, [] => false
  | p :: ps, c :: cs => p == c && isPre ps cs

/-- Rust `s.starts_with(p)`. -/
def strStartsWith (s p : String) : Bool := isPre p.data s.data

/-- Split a character list at every character satisfying `p`, keeping empty
chunks (the helper under `splitWhitespace`). -/
def splitOnPred (p : Char → Bool) : List Char → List (List Char)
  | [] => [[]]
  | c :: cs =>
    if p c then [] :: splitOnPred p cs
    else
      match splitOnPred p cs with
      | [] => [[c]]
      | w :: ws => (c :: w) :: ws

/-- Rust `str::split_whitespace`: whitespace-separated chunks, empties
discarded. -/
def splitWhitespace (s : String) : List String :=
  ((splitOnPred Char.isWhitespace s.data).filter (fun w => !w.isEmpty)).map
    (fun w => (⟨w⟩ : String))

/-- `Iterator::nth(1)` on the token iterator. -/
def second? : List String → Option String
  | _ :: x :: _ => some x
  | _ => none

/-- Rust `str::trim`: drop leading and trailing whitespace characters. -/
def trimChars (l : List Char) : List Char :=
  ((l.dropWhile Char.isWhitespace).reverse.dropWhile Char.isWhitespace).reverse

/-- Rust `str::strip_prefix`: `some` of the remainder iff the pattern is a
prefix. -/
def stripPreOpt : List Char → List Char → Option (List Char)
  | [], l => some l
  | _ :: _, [] => none
  | p :: ps, c :: cs => if p = c then stripPreOpt ps cs else none

/-- Rust `str::strip_suffix`, via `stripPreOpt` on the reversals. -/
def stripSufOpt (l suf : List Char) : Option (List Char) :=
  match stripPreOpt suf.reverse l.reverse with
  | none => none
  | some r => some r.reverse

/-- First occurrence of `sep` in a list: `some (before, after)` for the
leftmost match, `none` when there is none.  Together with a second search on
`after` this models the first two elements of Rust's `str::split` iterator. -/
def splitFirst (sep : List Char) : List Char → Option (List Char × List Char)
  | [] => none
  | c :: cs =>
    if isPre sep (c :: cs) then some ([], (c :: cs).drop sep.length)
    else
      match splitFirst sep cs with
      | none => none
      | some (pre, post) => some (c :: pre, post)

/-- The five fixed four-character type symbols (the `match typ_text` of the
source); anything else is the `bail!` error. -/
def decodeType (t : String) : Except ParseError ActionType :=
  if t = "  + " then .ok .Create
  else if t = "  ~ " then .ok .Update
  else if t = "  - " then .ok .Destroy
  else if t = "-/+ " then .ok .DestroyThenCreate
  else if t = "+/- " then .ok .DuplicateThenRemove
  else .error (.unexpectedType t)

/-- The tail of `read_action_header` after the two fixed-offset `split_at`
calls: trim, strip the bounding quote and the closing-brace suffix, then split
the inner text on the quote-space-quote separator into resource and name. -/
def parseQuoted (rest0 : List Char) : Except ParseError (String × String) :=
  match stripPreOpt ['"'] (trimChars rest0) with
  | none => .error .missingBeginQuote
  | some rest1 =>
    match stripSufOpt rest1 ['"', ' ', '\x7b'] with
    | none => .error .missingEndQuote
    | some inner =>
      match splitFirst ['"', ' ', '"'] inner with
      | none => .error .missingName
      | some (res, post) =>
        .ok (⟨res⟩, ⟨match splitFirst ['"', ' ', '"'] post with
                     | none => post
                     | some (nm, _) => nm⟩)

/-- Decoding of the detail line (the part of `read_action_header` from
`line.split_at(4)` on): first the 4-character symbol field (panic when the
line is shorter), then the unconditional skip of 9 further characters (panic
when fewer remain), then `parseQuoted`. -/
def read_action_detail (line : String) : Except ParseError (ActionType × String × String) :=
  if 4 ≤ line.data.length then
    match decodeType ⟨line.data.take 4⟩ with
    | .error e => .error e
    | .ok typ =>
      if 9 ≤ (line.data.drop 4).length then
        match parseQuoted ((line.data.drop 4).drop 9) with
        | .error e => .error e
        | .ok (res, nm) => .ok (typ, res, nm)
      else .error .panicked
  else .error .panicked

/-- `read_action_header`: `line` is the buffer holding the header line;
`input` is the rest of the stream.  Takes the second whitespace token of the
header as `reference`, then clears the buffer and reads the detail line (at
end of stream `read_line` returns `Ok(0)` and the buffer stays empty), then
decodes it.  Returns the skeleton `Action`, the new buffer contents (the
detail line) and the remaining stream. -/
def read_action_header (line : String) (input : List String) :
    Except ParseError (Action × String × List String) :=
  match second? (splitWhitespace line) with
  | none => .error .missingReference
  | some reference =>
    let detail := match input with | [] => "" | d :: _ => d
    let rest := match input with | [] => ([] : List String) | _ :: t => t
    match read_action_detail detail with
    | .error e => .error e
    | .ok (typ, resource, name) =>
      .ok ({ typ := typ, reference := reference, resource := resource,
             name := name, content := [] }, detail, rest)

def tfLit : String := "Terraform will perform the following actions:"
def ncLit : String := "No changes. Infrastructure is up-to-date."
def hdrLit : String := "  # "
def planLit : String := "Plan: "
def closeLit : String := "    \x7d"

/-- A line the main loop treats specially (header, plan terminator, or body
close marker). -/
def specialLine (l : String) : Bool :=
  strStartsWith l hdrLit || strStartsWith l planLit || strStartsWith l closeLit

/-- The first `while` of `main`: skip the preamble.  `none` is the early
`return Ok(())` on the no-changes line; otherwise the pair is the buffer
contents and remaining stream when the loop is left (the matched marker line,
or the empty cleared buffer at end of stream). -/
def skipPreamble : List String → Option (String × List String)
  | [] => some ("", [])
  | l :: ls =>
    if strStartsWith l tfLit then some (l, ls)
    else if strStartsWith l ncLit then none
    else skipPreamble ls

/-- The second `while` of `main`: scan for the first header line.  The buffer
is NOT cleared after the preamble loop, so the first read appends to the
leftover marker line.  Returns buffer and remaining stream when the loop is
left. -/
def findFirstHeader : String → List String → String × List String
  | buf, [] => (buf, [])
  | buf, l :: ls =>
    if strStartsWith ⟨buf.data ++ l.data⟩ hdrLit then ((⟨buf.data ++ l.data⟩ : String), ls)
    else findFirstHeader "" ls

/-- The main `loop` of `main`.  The head of `stream` is the current buffer
contents examined at the top of the loop; the empty list is the `read_line ==
0` break.  In the header branch, `read_action_header` consumes exactly the
head of the remaining stream as the detail line (its returned remainder is
the tail), and the detail line in the buffer is cleared by the `line.clear()`
at the bottom of the loop before the next read. -/
def runLoop (stream : List String) (cur : Action) (acc : List Action) :
    Except ParseError (List Action) :=
  match stream with
  | [] => .ok acc
  | line :: input =>
    if strStartsWith line hdrLit then
      match read_action_header line input with
      | .error e => .error e
      | .ok (a, _, _) =>
        match input with
        | [] => .ok acc          -- unreachable: an empty stream has no detail line to decode
        | _ :: tl => runLoop tl a acc
    else if strStartsWith line planLit then .ok acc
    else if strStartsWith line closeLit then runLoop input cur (acc ++ [cur])
    else runLoop input { cur with content := cur.content ++ [line] } acc

/-- The whole parse of `main` (everything before the UI is built): preamble
skip, scan to the first header, decode it, then the main loop starting with
the first detail line still in the buffer. -/
def mainParse (input : List String) : Except ParseError (List Action) :=
  match skipPreamble input with
  | none => .ok []
  | some (buf0, rest0) =>
    let fh := findFirstHeader buf0 rest0
    match read_action_header fh.1 fh.2 with
    | .error e => .error e
    | .ok (a, d, rest) => runLoop (d :: rest) a []

/-!
A specification-side description of one change block of the actions section,
used to state the properties that quantify over well-formed reports: a header
line, its detail line, the raw body lines, and an optional close-marker line.
-/

structure Block where
  header : String
  detail : String
  body : List String
  close : Option String
deriving DecidableEq

/-- Well-formedness of a block: the header carries the marker and a second
whitespace token, the detail line decodes, the body lines carry none of the
three special markers, and the close line (when present) carries the
close marker. -/
def Block.wfb (b : Block) : Bool :=
  strStartsWith b.header hdrLit &&
  (second? (splitWhitespace b.header)).isSome &&
  (match read_action_detail b.detail with | .ok _ => true | .error _ => false) &&
  b.body.all (fun l => !specialLine l) &&
  (match b.close with | none => true | some c => strStartsWith c closeLit)

/-- The raw input lines of one block. -/
def Block.lines (b : Block) : List String :=
  b.header :: b.detail :: (b.body ++ (match b.close with | none => [] | some c => [c]))

/-- The raw input lines of a list of blocks. -/
def linesOfBlocks : List Block → List String
  | [] => []
  | b :: bs => b.lines ++ linesOfBlocks bs

/-- The skeleton `Action` that `read_action_header` produces for a block
(`none` when the block would not decode). -/
def Block.skel? (b : Block) : Option Action :=
  match second? (splitWhitespace b.header), read_action_detail b.detail with
  | some r, .ok (t, res, nm) =>
    some { typ := t, reference := r, resource := res, name := nm, content := [] }
  | _, _ => none

/-- The records the parser appends for a list of blocks, in order: one per
closed block.  `first` records whether the first block of the list is the
very first block of the run — the detail line of the first action is still in
the line buffer when the main loop starts, so it is pushed into that action's
content before the body lines. -/
def emittedActions : Bool → List Block → List Action
  | _, [] => []
  | first, b :: bs =>
    (match b.close, b.skel? with
     | some _, some a =>
       [{ a with content := (if first then [b.detail] else []) ++ b.body }]
     | _, _ => []) ++ emittedActions false bs

/-- The contents of the records of `emittedActions`, described directly from
the raw lines of the blocks. -/
def emittedContents : Bool → List Block → List (List String)
  | _, [] => []
  | first, b :: bs =>
    (match b.close with
     | some _ => [(if first then [b.detail] else []) ++ b.body]
     | none => []) ++ emittedContents false bs

/-- The number of blocks whose record is closed by a close-marker line before
the next header or the plan terminator. -/
def closedCount : List Block → Nat
  | [] => 0
  | b :: bs => (match b.close with | some _ => 1 | none => 0) + closedCount bs

/-- An admissible tail of the actions section: either end of stream, or a
plan-terminator line followed by arbitrary unread lines. -/
def termOk : List String → Bool
  | [] => true
  | p :: _ => strStartsWith p planLit

/-- The invariant of finalized records provable for every successful parse:
the reference is a nonempty token, and no content line is a close-marker or
header line.  (The detail line of the first action does end up in its
content, and resource or name may be empty — see the corresponding claims.) -/
def goodAction (a : Action) : Prop :=
  a.reference ≠ "" ∧ ∀ l ∈ a.content,
    strStartsWith l closeLit = false ∧ strStartsWith l hdrLit = false

/-- A closed sample block (used by concrete witnesses). -/
def wb1 : Block :=
  { header := "  # module.one.a id\n"
    detail := "  + resources \"aws_iam_policy\" \"alpha\" \x7b\n"
    body := ["      arn = 1\n"]
    close := some "    \x7d\n" }

/-- An unclosed sample block (used by concrete witnesses). -/
def wb2 : Block :=
  { header := "  # module.two.b id\n"
    detail := "  ~ resources \"aws_iam_role\" \"beta\" \x7b\n"
    body := []
    close := none }

/-- A sample in-progress record (used by concrete witnesses). -/
def wact1 : Action :=
  { typ := .Create, reference := "x", resource := "r", name := "n", content := [] }

/-- Another sample in-progress record (used by concrete witnesses). -/
def wact2 : Action :=
  { typ := .Destroy, reference := "y", resource := "q", name := "m",
    content := ["z\n"] }

/-! Helper lemmas about the character-level prefix test. -/

theorem strmk_data (s : String) : (⟨s.data⟩ : String) = s := rfl

theorem isPre_append {p l : List Char} (s : List Char) (h : isPre p l = true) :
    isPre p (l ++ s) = true := by
  induction p generalizing l with
  | nil => rfl
  | cons a as ih =>
    cases l with
    | nil => simp [isPre] at h
    | cons c cs =>
      simp only [isPre, Bool.and_eq_true, List.cons_append] at h ⊢
      exact ⟨h.1, ih h.2⟩

theorem isPre_of_both {p q l : List Char} (hp : isPre p l = true) (hq : isPre q l = true)
    (hlen : p.length ≤ q.length) : isPre p q = true := by
  induction p generalizing q l with
  | nil => rfl
  | cons a as ih =>
    cases l with
    | nil => simp [isPre] at hp
    | cons c cs =>
      cases q with
      | nil => simp at hlen
      | cons b bs =>
        simp only [isPre, Bool.and_eq_true, beq_iff_eq] at hp hq ⊢
        refine ⟨hp.1.trans hq.1.symm, ih hp.2 hq.2 ?_⟩
        simpa using hlen

theorem isPre_of_take {p l : List Char} (n : Nat) (hn : p.length = n) (h : l.take n = p) :
    isPre p l = true := by
  induction n generalizing p l with
  | zero =>
    cases p with
    | nil => rfl
    | cons a as => simp at hn
  | succ m ih =>
    cases l with
    | nil =>
      rw [List.take_nil] at h
      subst h
      simp at hn
    | cons c cs =>
      cases p with
      | nil => simp at hn
      | cons a as =>
        rw [List.take_succ_cons] at h
        injection h with h1 h2
        simp only [isPre, Bool.and_eq_true, beq_iff_eq]
        exact ⟨h1.symm, ih (by simpa using hn) h2⟩

theorem decodeType_ok {s : String} {t : ActionType} (h : decodeType s = .ok t) :
    s = "  + " ∨ s = "  ~ " ∨ s = "  - " ∨ s = "-/+ " ∨ s = "+/- " := by
  unfold decodeType at h
  split_ifs at h with h1 h2 h3 h4 h5
  · exact Or.inl h1
  · exact Or.inr (Or.inl h2)
  · exact Or.inr (Or.inr (Or.inl h3))
  · exact Or.inr (Or.inr (Or.inr (Or.inl h4)))
  · exact Or.inr (Or.inr (Or.inr (Or.inr h5)))

/-- A line whose first four characters form one of the five type symbols is
not a header, plan, or close-marker line. -/
theorem detail_not_special {d : String} {x : ActionType × String × String}
    (h : read_action_detail d = .ok x) : specialLine d = false := by
  have h4 : 4 ≤ d.data.length := by
    by_contra hc
    rw [read_action_detail, if_neg hc] at h
    cases h
  rw [read_action_detail, if_pos h4] at h
  cases hdt : decodeType ⟨d.data.take 4⟩ with
  | error e => rw [hdt] at h; cases h
  | ok typ =>
    have hsym := decodeType_ok hdt
    have htake : ∀ sym : String, (⟨d.data.take 4⟩ : String) = sym → d.data.take 4 = sym.data :=
      fun sym hs => congrArg String.data hs
    have hpre : ∀ sym : String, (⟨d.data.take 4⟩ : String) = sym → sym.data.length = 4 →
        isPre sym.data d.data = true :=
      fun sym hs hl => isPre_of_take 4 hl (htake sym hs)
    simp only [specialLine, Bool.or_eq_false_iff]
    refine ⟨⟨?_, ?_⟩, ?_⟩ <;>
    · cases hc : strStartsWith d _
      · rfl
      · exfalso
        rcases hsym with hs | hs | hs | hs | hs <;>
        · have hp := hpre _ hs (by decide)
          have := isPre_of_both hp hc (by decide)
          revert this
          decide


theorem close_not_hdr {l : String} (hc : strStartsWith l closeLit = true) :
    strStartsWith l hdrLit = false := by
  cases hh : strStartsWith l hdrLit
  · rfl
  · exact absurd (isPre_of_both hh hc (by decide)) (by decide)

theorem close_not_plan {l : String} (hc : strStartsWith l closeLit = true) :
    strStartsWith l planLit = false := by
  cases hp : strStartsWith l planLit
  · rfl
  · exact absurd (isPre_of_both hc hp (by decide)) (by decide)

theorem plan_not_hdr {l : String} (hp : strStartsWith l planLit = true) :
    strStartsWith l hdrLit = false := by
  cases hh : strStartsWith l hdrLit
  · rfl
  · exact absurd (isPre_of_both hh hp (by decide)) (by decide)

theorem nc_not_tf {l : String} (hn : strStartsWith l ncLit = true) :
    strStartsWith l tfLit = false := by
  cases ht : strStartsWith l tfLit
  · rfl
  · exact absurd (isPre_of_both hn ht (by decide)) (by decide)

/-- A member of `splitWhitespace` output is a nonempty token. -/
theorem splitWhitespace_mem_ne {s w : String} (hw : w ∈ splitWhitespace s) : w ≠ "" := by
  simp only [splitWhitespace, List.mem_map, List.mem_filter] at hw
  obtain ⟨c, ⟨_, hc2⟩, rfl⟩ := hw
  intro he
  have hcd : c = [] := congrArg String.data he
  subst hcd
  simp at hc2

theorem second?_mem {l : List String} {r : String} (h : second? l = some r) : r ∈ l := by
  cases l with
  | nil => cases h
  | cons a l2 =>
    cases l2 with
    | nil => cases h
    | cons b l3 =>
      simp only [second?, Option.some.injEq] at h
      subst h
      simp

/-- Inversion for a successful `read_action_header`: the reference is the
second header token, the detail line was the head of the stream, and the
skeleton has empty content. -/
theorem read_action_header_inv {line : String} {input : List String} {a : Action}
    {d : String} {rest : List String}
    (h : read_action_header line input = .ok (a, d, rest)) :
    second? (splitWhitespace line) = some a.reference ∧
    input = d :: rest ∧
    read_action_detail d = .ok (a.typ, a.resource, a.name) ∧
    a.content = [] := by
  unfold read_action_header at h
  cases h2 : second? (splitWhitespace line) with
  | none => rw [h2] at h; cases h
  | some r =>
    rw [h2] at h
    cases input with
    | nil =>
      have hpan : read_action_detail "" = .error .panicked := by decide
      simp only [hpan] at h
      cases h
    | cons d0 tl =>
      cases hd : read_action_detail d0 with
      | error e => simp only [hd] at h; cases h
      | ok y =>
        obtain ⟨t, res, nm⟩ := y
        simp only [hd, Except.ok.injEq, Prod.mk.injEq] at h
        obtain ⟨hA, hD, hR⟩ := h
        subst hA; subst hD; subst hR
        exact ⟨rfl, rfl, hd, rfl⟩

/-- Evaluation of a successful `read_action_header`. -/
theorem read_action_header_eval {line r d : String} {tl : List String}
    {t : ActionType} {res nm : String}
    (h2 : second? (splitWhitespace line) = some r)
    (hd : read_action_detail d = .ok (t, res, nm)) :
    read_action_header line (d :: tl)
      = .ok ({ typ := t, reference := r, resource := res, name := nm,
               content := [] }, d, tl) := by
  unfold read_action_header
  rw [h2]
  simp only [hd]

theorem ref_nonempty {line : String} {input : List String} {a : Action} {d : String}
    {rest : List String} (h : read_action_header line input = .ok (a, d, rest)) :
    a.reference ≠ "" := by
  have hinv := (read_action_header_inv h).1
  exact splitWhitespace_mem_ne (second?_mem hinv)

/-! Step lemmas for the main loop. -/

theorem runLoop_nil (cur : Action) (acc : List Action) : runLoop [] cur acc = .ok acc := rfl

theorem runLoop_plan {line : String} (hp : strStartsWith line planLit = true)
    (input : List String) (cur : Action) (acc : List Action) :
    runLoop (line :: input) cur acc = .ok acc := by
  simp [runLoop, plan_not_hdr hp, hp]

theorem runLoop_close {line : String} (hc : strStartsWith line closeLit = true)
    (input : List String) (cur : Action) (acc : List Action) :
    runLoop (line :: input) cur acc = runLoop input cur (acc ++ [cur]) := by
  simp [runLoop, close_not_hdr hc, close_not_plan hc, hc]

theorem runLoop_content {line : String} (hs : specialLine line = false)
    (input : List String) (cur : Action) (acc : List Action) :
    runLoop (line :: input) cur acc
      = runLoop input { cur with content := cur.content ++ [line] } acc := by
  simp only [specialLine, Bool.or_eq_false_iff] at hs
  simp [runLoop, hs.1.1, hs.1.2, hs.2]

theorem runLoop_header {line : String} (hh : strStartsWith line hdrLit = true)
    {d0 : String} {tl : List String} {a : Action} {d : String} {rest : List String}
    (hr : read_action_header line (d0 :: tl) = .ok (a, d, rest)) (cur : Action)
    (acc : List Action) :
    runLoop (line :: d0 :: tl) cur acc = runLoop tl a acc := by
  simp [runLoop, hh, hr]


/-- Processing a run of plain body lines appends them, in order, to the
in-progress record's content. -/
theorem runLoop_body (body : List String) :
    ∀ (rest : List String) (cur : Action) (acc : List Action),
      body.all (fun l => !specialLine l) = true →
      runLoop (body ++ rest) cur acc
        = runLoop rest { cur with content := cur.content ++ body } acc := by
  induction body with
  | nil =>
    intro rest cur acc _
    simp
  | cons l ls ih =>
    intro rest cur acc hb
    simp only [List.all_cons, Bool.and_eq_true] at hb
    rw [List.cons_append, runLoop_content (by simpa using hb.1)]
    rw [ih rest _ acc hb.2]
    simp

/-- If the block is well-formed, its skeleton exists and is determined by the
header token and the decoded detail line. -/
theorem skel_of_wfb {b : Block} (hw : b.wfb = true) :
    ∃ r t res nm, second? (splitWhitespace b.header) = some r ∧
      read_action_detail b.detail = .ok (t, res, nm) ∧
      b.skel? = some { typ := t, reference := r, resource := res, name := nm,
                       content := [] } := by
  simp only [Block.wfb, Bool.and_eq_true] at hw
  obtain ⟨⟨⟨⟨_, hsec⟩, hdet⟩, _⟩, _⟩ := hw
  obtain ⟨r, hr⟩ := Option.isSome_iff_exists.mp hsec
  cases hd : read_action_detail b.detail with
  | error e => rw [hd] at hdet; cases hdet
  | ok y =>
    obtain ⟨t, res, nm⟩ := y
    exact ⟨r, t, res, nm, hr, rfl, by simp [Block.skel?, hr, hd]⟩

/-- Main induction: from a header line onward, a sequence of well-formed
blocks followed by an admissible tail produces exactly one record per closed
block, appended to the accumulator in order.  The in-progress record `cur` at
the header is irrelevant (it is silently dropped). -/
theorem runLoop_blocks (bs : List Block) :
    ∀ (term : List String) (cur : Action) (acc : List Action),
      bs.all Block.wfb = true → termOk term = true →
      runLoop (linesOfBlocks bs ++ term) cur acc
        = .ok (acc ++ emittedActions false bs) := by
  induction bs with
  | nil =>
    intro term cur acc _ ht
    cases term with
    | nil => simp [linesOfBlocks, runLoop_nil, emittedActions]
    | cons p junk =>
      simp only [termOk] at ht
      simp [linesOfBlocks, runLoop_plan ht, emittedActions]
  | cons b bs2 ih =>
    intro term cur acc hwf ht
    simp only [List.all_cons, Bool.and_eq_true] at hwf
    obtain ⟨hwfb, hwfs⟩ := hwf
    obtain ⟨r, t, res, nm, hr, hd, hskel⟩ := skel_of_wfb hwfb
    have hwb := hwfb
    simp only [Block.wfb, Bool.and_eq_true] at hwb
    obtain ⟨⟨⟨⟨hhdr, _⟩, _⟩, hbody⟩, hclose⟩ := hwb
    cases hc : b.close with
    | none =>
      rw [linesOfBlocks, Block.lines, hc]
      dsimp only
      simp only [List.cons_append, List.append_assoc, List.append_nil, List.nil_append]
      rw [runLoop_header hhdr (read_action_header_eval hr hd) cur acc]
      rw [runLoop_body b.body _ _ acc hbody]
      rw [ih term _ acc hwfs ht]
      simp [emittedActions, hc]
    | some c =>
      rw [hc] at hclose
      rw [linesOfBlocks, Block.lines, hc]
      dsimp only
      simp only [List.cons_append, List.append_assoc, List.singleton_append,
        List.nil_append]
      rw [runLoop_header hhdr (read_action_header_eval hr hd) cur acc]
      rw [runLoop_body b.body _ _ acc hbody]
      rw [runLoop_close hclose]
      rw [ih term _ _ hwfs ht]
      simp [emittedActions, hc, hskel, List.append_assoc]

theorem data_empty : ("" : String).data = [] := rfl

/-- The preamble loop skips lines carrying neither marker and stops at the
actions marker, leaving it in the buffer. -/
theorem skipPreamble_eval (pre : List String)
    (hpre : ∀ l ∈ pre, strStartsWith l tfLit = false ∧ strStartsWith l ncLit = false)
    {tf : String} (htf : strStartsWith tf tfLit = true) (rest : List String) :
    skipPreamble (pre ++ tf :: rest) = some (tf, rest) := by
  induction pre with
  | nil => simp [skipPreamble, htf]
  | cons l ls ih =>
    have hl := hpre l (by simp)
    rw [List.cons_append, skipPreamble]
    simp only [hl.1, hl.2]
    simp only [Bool.false_eq_true, if_false]
    exact ih (fun x hx => hpre x (List.mem_cons_of_mem _ hx))

/-- The header-scan loop: the first read appends to the uncleared marker
line, which therefore can never match the header marker; the swallowed line
is then discarded. -/
theorem findFirstHeader_tf {tf : String} (htf : strStartsWith tf tfLit = true)
    (sep : String) (rest : List String) :
    findFirstHeader tf (sep :: rest) = findFirstHeader "" rest := by
  have hco : strStartsWith (⟨tf.data ++ sep.data⟩ : String) hdrLit = false := by
    cases hh : strStartsWith (⟨tf.data ++ sep.data⟩ : String) hdrLit
    · rfl
    · have h2 : isPre tfLit.data (tf.data ++ sep.data) = true := isPre_append _ htf
      exact absurd (isPre_of_both hh h2 (by decide)) (by decide)
  rw [findFirstHeader]
  simp only [hco, Bool.false_eq_true, if_false]

/-- The header-scan loop with a cleared buffer: skips non-header lines and
stops at the first header line. -/
theorem findFirstHeader_skip (pre : List String)
    (hpre : ∀ l ∈ pre, strStartsWith l hdrLit = false)
    {hd : String} (hhd : strStartsWith hd hdrLit = true) (rest : List String) :
    findFirstHeader "" (pre ++ hd :: rest) = (hd, rest) := by
  induction pre with
  | nil =>
    rw [List.nil_append, findFirstHeader]
    simp only [data_empty, List.nil_append, strmk_data, hhd, if_true]
  | cons l ls ih =>
    have hl := hpre l (by simp)
    rw [List.cons_append, findFirstHeader]
    simp only [data_empty, List.nil_append, strmk_data, hl, Bool.false_eq_true, if_false]
    exact ih (fun x hx => hpre x (List.mem_cons_of_mem _ hx))


/-- Master theorem for well-formed reports: the preamble, the actions marker,
the swallowed separator line, further preamble lines, a nonempty sequence of
well-formed blocks and an admissible tail parse to exactly the records of the
closed blocks, in input order, with the first action's own detail line
prepended to its content. -/
theorem mainParse_valid
    (pre1 : List String) (tf sep : String) (pre2 : List String)
    (b : Block) (bs : List Block) (term : List String)
    (hpre1 : ∀ l ∈ pre1, strStartsWith l tfLit = false ∧ strStartsWith l ncLit = false)
    (htf : strStartsWith tf tfLit = true)
    (hpre2 : ∀ l ∈ pre2, strStartsWith l hdrLit = false)
    (hwf : (b :: bs).all Block.wfb = true)
    (hterm : termOk term = true) :
    mainParse (pre1 ++ tf :: sep :: (pre2 ++ (linesOfBlocks (b :: bs) ++ term)))
      = .ok (emittedActions true (b :: bs)) := by
  simp only [List.all_cons, Bool.and_eq_true] at hwf
  obtain ⟨hwfb, hwfs⟩ := hwf
  obtain ⟨r, t, res, nm, hr, hd, hskel⟩ := skel_of_wfb hwfb
  have hwb := hwfb
  simp only [Block.wfb, Bool.and_eq_true] at hwb
  obtain ⟨⟨⟨⟨hhdr, _⟩, _⟩, hbody⟩, hclose⟩ := hwb
  unfold mainParse
  rw [skipPreamble_eval pre1 hpre1 htf]
  dsimp only
  rw [findFirstHeader_tf htf]
  rw [linesOfBlocks, Block.lines]
  simp only [List.cons_append, List.append_assoc]
  rw [findFirstHeader_skip pre2 hpre2 hhdr]
  dsimp only
  rw [read_action_header_eval hr hd]
  dsimp only
  rw [runLoop_content (detail_not_special hd)]
  rw [runLoop_body b.body _ _ _ hbody]
  cases hc : b.close with
  | none =>
    dsimp only [hc]
    simp only [List.nil_append]
    rw [runLoop_blocks bs term _ _ hwfs hterm]
    simp [emittedActions, hc]
  | some c =>
    rw [hc] at hclose
    dsimp only [hc]
    simp only [List.singleton_append]
    rw [runLoop_close hclose]
    rw [runLoop_blocks bs term _ _ hwfs hterm]
    simp [emittedActions, hc, hskel]

/-- One emitted record per closed block. -/
theorem emittedActions_length (bs : List Block) :
    ∀ first, bs.all Block.wfb = true →
      (emittedActions first bs).length = closedCount bs := by
  induction bs with
  | nil => intro first _; rfl
  | cons b bs2 ih =>
    intro first h
    simp only [List.all_cons, Bool.and_eq_true] at h
    obtain ⟨r, t, res, nm, hr, hd, hskel⟩ := skel_of_wfb h.1
    cases hc : b.close with
    | none => simp [emittedActions, closedCount, hc, ih false h.2]
    | some c =>
      simp [emittedActions, closedCount, hc, hskel, ih false h.2]
      omega

/-- The contents of the emitted records, read off the raw block lines. -/
theorem emittedActions_contents (bs : List Block) :
    ∀ first, bs.all Block.wfb = true →
      (emittedActions first bs).map Action.content = emittedContents first bs := by
  induction bs with
  | nil => intro first _; rfl
  | cons b bs2 ih =>
    intro first h
    simp only [List.all_cons, Bool.and_eq_true] at h
    obtain ⟨r, t, res, nm, hr, hd, hskel⟩ := skel_of_wfb h.1
    cases hc : b.close with
    | none => simp [emittedActions, emittedContents, hc, ih false h.2]
    | some c => simp [emittedActions, emittedContents, hc, hskel, ih false h.2]


theorem runLoop_header_error {line : String} (hh : strStartsWith line hdrLit = true)
    {input : List String} {e : ParseError}
    (hr : read_action_header line input = .error e) (cur : Action) (acc : List Action) :
    runLoop (line :: input) cur acc = .error e := by
  simp [runLoop, hh, hr]

/-- Every record in a successful result of the main loop satisfies the
invariant, provided the in-progress record and the accumulator do. -/
theorem runLoop_good (n : Nat) : ∀ (stream : List String), stream.length ≤ n →
    ∀ (cur : Action) (acc : List Action),
      goodAction cur → (∀ x ∈ acc, goodAction x) →
      ∀ acts, runLoop stream cur acc = .ok acts →
      ∀ x ∈ acts, goodAction x := by
  induction n with
  | zero =>
    intro stream hlen cur acc _ hacc acts h x hx
    have : stream = [] := List.length_eq_zero.mp (Nat.le_zero.mp hlen)
    subst this
    rw [runLoop_nil] at h
    cases h
    exact hacc x hx
  | succ m ih =>
    intro stream hlen cur acc hcur hacc acts h x hx
    cases stream with
    | nil =>
      rw [runLoop_nil] at h
      cases h
      exact hacc x hx
    | cons line input =>
      by_cases hh : strStartsWith line hdrLit = true
      · cases hra : read_action_header line input with
        | error e =>
          rw [runLoop_header_error hh hra] at h
          cases h
        | ok y =>
          obtain ⟨a, d, rest⟩ := y
          obtain ⟨-, hin, -, hcont⟩ := read_action_header_inv hra
          subst hin
          rw [runLoop_header hh hra] at h
          have hgood : goodAction a := by
            refine ⟨ref_nonempty hra, ?_⟩
            rw [hcont]
            intro l hl
            cases hl
          refine ih rest ?_ a acc hgood hacc acts h x hx
          simp at hlen
          omega
      · by_cases hp : strStartsWith line planLit = true
        · rw [runLoop_plan hp] at h
          cases h
          exact hacc x hx
        · by_cases hcl : strStartsWith line closeLit = true
          · rw [runLoop_close hcl] at h
            refine ih input ?_ cur (acc ++ [cur]) hcur ?_ acts h x hx
            · simp at hlen; omega
            · intro y hy
              rcases List.mem_append.mp hy with hy1 | hy2
              · exact hacc y hy1
              · rw [List.mem_singleton.mp hy2]
                exact hcur
          · have hs : specialLine line = false := by
              simp [specialLine, Bool.or_eq_false_iff]
              exact ⟨⟨by simpa using hh, by simpa using hp⟩, by simpa using hcl⟩
            rw [runLoop_content hs] at h
            have hgood : goodAction { cur with content := cur.content ++ [line] } := by
              refine ⟨hcur.1, ?_⟩
              intro l hl
              rcases List.mem_append.mp hl with hl1 | hl2
              · exact hcur.2 l hl1
              · rw [List.mem_singleton.mp hl2]
                exact ⟨by simpa using hcl, by simpa using hh⟩
            refine ih input ?_ _ acc hgood hacc acts h x hx
            simp at hlen; omega

/-- Every record of a successful whole-program parse satisfies the
invariant. -/
theorem mainParse_good {input : List String} {acts : List Action}
    (h : mainParse input = .ok acts) : ∀ x ∈ acts, goodAction x := by
  unfold mainParse at h
  cases hsp : skipPreamble input with
  | none =>
    rw [hsp] at h
    cases h
    intro x hx
    cases hx
  | some pr =>
    obtain ⟨buf0, rest0⟩ := pr
    rw [hsp] at h
    dsimp only at h
    cases hra : read_action_header (findFirstHeader buf0 rest0).1
        (findFirstHeader buf0 rest0).2 with
    | error e => rw [hra] at h; cases h
    | ok y =>
      obtain ⟨a, d, rest⟩ := y
      rw [hra] at h
      have hgood : goodAction a := by
        refine ⟨ref_nonempty hra, ?_⟩
        rw [(read_action_header_inv hra).2.2.2]
        intro l hl
        cases hl
      exact runLoop_good (d :: rest).length _ (Nat.le_refl _) a [] hgood
        (by intro x hx; cases hx) acts h

/-- The nine characters following the four-character symbol field are skipped
without inspection: replacing them changes nothing. -/
theorem detail_skip_nine (t : String) :
    ∀ junk : String, junk.data.length = 9 →
      read_action_detail ⟨"  + ".data ++ (junk.data ++ t.data)⟩
        = (match parseQuoted t.data with
           | .error e => .error e
           | .ok (res, nm) => .ok (.Create, res, nm)) := by
  intro junk hj
  have htake : (("  + ".data ++ (junk.data ++ t.data)) : List Char).take 4 = "  + ".data :=
    List.take_left' (by decide)
  have hdrop : (("  + ".data ++ (junk.data ++ t.data)) : List Char).drop 4
      = junk.data ++ t.data :=
    List.drop_left' (by decide)
  have hdrop9 : ((junk.data ++ t.data) : List Char).drop 9 = t.data :=
    List.drop_left' hj
  rw [read_action_detail]
  dsimp only
  rw [htake, hdrop, hdrop9]
  rw [if_pos (by simp)]
  have hdec : decodeType ⟨"  + ".data⟩ = .ok .Create := by decide
  rw [hdec]
  simp [hj]


theorem decodeType_table {s : String} {t : ActionType} (h : decodeType s = .ok t) :
    (s, t) ∈ [("  + ", ActionType.Create), ("  ~ ", ActionType.Update),
      ("  - ", ActionType.Destroy), ("-/+ ", ActionType.DestroyThenCreate),
      ("+/- ", ActionType.DuplicateThenRemove)] := by
  unfold decodeType at h
  split_ifs at h with h1 h2 h3 h4 h5 <;>
    (cases h; subst_vars; simp)

theorem read_action_detail_inv_typ {l : String} {t : ActionType} {res nm : String}
    (h : read_action_detail l = .ok (t, res, nm)) :
    decodeType ⟨l.data.take 4⟩ = .ok t := by
  unfold read_action_detail at h
  split at h
  · split at h
    · cases h
    · rename_i typ heq
      split at h
      · split at h
        · cases h
        · simp only [Except.ok.injEq, Prod.mk.injEq] at h
          obtain ⟨h1, -, -⟩ := h
          subst h1
          exact heq
      · cases h
  · cases h

theorem skipPreamble_nc (pre : List String)
    (hpre : ∀ l ∈ pre, strStartsWith l tfLit = false ∧ strStartsWith l ncLit = false)
    {nc : String} (hnc : strStartsWith nc ncLit = true) (rest : List String) :
    skipPreamble (pre ++ nc :: rest) = none := by
  induction pre with
  | nil => simp [skipPreamble, nc_not_tf hnc, hnc]
  | cons l ls ih =>
    have hl := hpre l (by simp)
    rw [List.cons_append, skipPreamble]
    simp only [hl.1, hl.2, Bool.false_eq_true, if_false]
    exact ih (fun x hx => hpre x (List.mem_cons_of_mem _ hx))

/-!
The claims.  Each claim of the specification corresponds to one theorem
below (with a counterexample theorem where the claim as stated fails, and a
closed witness theorem where the main theorem carries hypotheses).
-/

/-- Claim C1: decoding the detail line `  + resources "aws_iam_policy" "name" {`
succeeds and yields typ Create, resource `aws_iam_policy`, name `name`;
equivalently, after the 4-character symbol field the decoder skips exactly 9
characters — the fixed `resources` region emitted by the report format —
without inspecting them (the following space is absorbed by the trim), before
the quoted resource/name pair. -/
theorem claim_C1_detail_decode :
    read_action_detail "  + resources \"aws_iam_policy\" \"name\" \x7b"
      = .ok (.Create, "aws_iam_policy", "name") ∧
    ("resources" : String).data.length = 9 ∧
    (∀ junk t : String, junk.data.length = 9 →
      read_action_detail ⟨"  + ".data ++ (junk.data ++ t.data)⟩
        = read_action_detail ⟨"  + ".data ++ ("resources".data ++ t.data)⟩) := by
  refine ⟨by decide, by decide, ?_⟩
  intro junk t hj
  rw [detail_skip_nine t junk hj, detail_skip_nine t "resources" (by decide)]

/-- Witness for C1: the decoder gives the same result whether the nine
characters after the symbol field read `resources` or anything else. -/
theorem claim_C1_witness :
    read_action_detail ⟨"  + ".data ++ ("XXXXXXXXX".data ++ " \"a\" \"b\" \x7b".data)⟩
      = read_action_detail ⟨"  + ".data ++ ("resources".data ++ " \"a\" \"b\" \x7b".data)⟩ :=
  claim_C1_detail_decode.2.2 "XXXXXXXXX" " \"a\" \"b\" \x7b" (by decide)

/-- Claim C2 (code bug): the claim says a header line at end of input yields
the descriptive detail-line error and that decoding is total.  In the code,
`read_line` returns `Ok(0)` at end of stream, so the `.context` error never
fires there; instead the empty buffer reaches `line.split_at(4)`, which
panics.  Detail lines shorter than the fixed offsets 4 and 13 likewise
panic in `split_at` instead of returning an error. -/
theorem claim_C2_missing_detail_panics :
    mainParse ["Terraform will perform the following actions:\n", "\n",
        "  # module.a.b id\n"] = .error .panicked ∧
    read_action_detail "ab\n" = .error .panicked ∧
    read_action_detail "  + x\n" = .error .panicked := by
  exact ⟨by decide, by decide, by decide⟩

/-- Claim C3 counterexample: a successful parse whose finalized record has an
empty resource and whose content contains its own detail line — refuting both
the non-empty-resource part and the no-detail-line-in-content part of the
claim. -/
theorem claim_C3_counterexample :
    mainParse ["Terraform will perform the following actions:\n", "\n",
        "  # module.a.b id\n", "  + resources \"\" \"x\" \x7b\n", "      f = 1\n",
        "    \x7d\n", "Plan: 1 to add\n"]
      = .ok [{ typ := .Create, reference := "module.a.b", resource := "",
               name := "x",
               content := ["  + resources \"\" \"x\" \x7b\n", "      f = 1\n"] }] := by
  decide

/-- Claim C3 (amended): every finalized record of a successful parse has a
nonempty reference and a valid typ (the latter by construction of the
`ActionType` field), and its content contains no close-marker line and no
header line.  Resource and name may be empty, and the first record's content
begins with its own detail line (see the counterexample). -/
theorem claim_C3_invariant {input : List String} {acts : List Action}
    (h : mainParse input = .ok acts) :
    ∀ a ∈ acts, a.reference ≠ "" ∧ ∀ l ∈ a.content,
      strStartsWith l closeLit = false ∧ strStartsWith l hdrLit = false :=
  mainParse_good h

/-- Witness for C3: the invariant instantiated on a concrete successful
parse. -/
theorem claim_C3_witness :
    ({ typ := ActionType.Create, reference := "m.a", resource := "r", name := "n",
       content := ["  + resources \"r\" \"n\" \x7b\n"] } : Action).reference ≠ "" ∧
    (strStartsWith "  + resources \"r\" \"n\" \x7b\n" closeLit = false ∧
     strStartsWith "  + resources \"r\" \"n\" \x7b\n" hdrLit = false) := by
  have h := claim_C3_invariant
    (show mainParse ["Terraform will perform the following actions:\n", "\n",
        "  # m.a id\n", "  + resources \"r\" \"n\" \x7b\n", "    \x7d\n", "Plan: x\n"]
      = .ok [{ typ := ActionType.Create, reference := "m.a", resource := "r",
               name := "n", content := ["  + resources \"r\" \"n\" \x7b\n"] }]
      from by decide)
    ({ typ := ActionType.Create, reference := "m.a", resource := "r", name := "n",
       content := ["  + resources \"r\" \"n\" \x7b\n"] } : Action) (by simp)
  exact ⟨h.1, h.2 "  + resources \"r\" \"n\" \x7b\n" (by simp)⟩

/-- Claim C4: the first four characters of the detail line determine the
`ActionType` by exact match against the five fixed symbols; a detail line
starting with the DestroyThenCreate symbol (minus, slash, plus, space)
yields DestroyThenCreate; a detail line whose first four
characters are `xx  ` yields the unrecognized-type error and aborts the
run. -/
theorem claim_C4_type_symbols :
    (∀ (l : String) (t : ActionType) (res nm : String),
      read_action_detail l = .ok (t, res, nm) →
      ((⟨l.data.take 4⟩ : String), t) ∈
        [("  + ", ActionType.Create), ("  ~ ", ActionType.Update),
         ("  - ", ActionType.Destroy), ("-/+ ", ActionType.DestroyThenCreate),
         ("+/- ", ActionType.DuplicateThenRemove)]) ∧
    read_action_detail "-/+ resources \"aws_iam_policy\" \"name\" \x7b\n"
      = .ok (.DestroyThenCreate, "aws_iam_policy", "name") ∧
    (∀ l : String, (⟨l.data.take 4⟩ : String) = "xx  " →
      read_action_detail l = .error (.unexpectedType "xx  ")) ∧
    mainParse ["Terraform will perform the following actions:\n", "\n",
        "  # m.a id\n", "xx  resources \"r\" \"n\" \x7b\n"]
      = .error (.unexpectedType "xx  ") := by
  refine ⟨?_, by decide, ?_, by decide⟩
  · intro l t res nm h
    exact decodeType_table (read_action_detail_inv_typ h)
  · intro l hl
    have hl4 : l.data.take 4 = ("xx  " : String).data := congrArg String.data hl
    have hlen : 4 ≤ l.data.length := by
      have hmin := congrArg List.length hl4
      rw [List.length_take] at hmin
      have h42 : (("xx  " : String).data).length = 4 := by decide
      rw [h42] at hmin
      omega
    rw [read_action_detail, if_pos hlen, hl]
    simp [show decodeType "xx  " = .error (.unexpectedType "xx  ") from by decide]

/-- Witness for C4: the table membership and the unrecognized-symbol error at
concrete detail lines. -/
theorem claim_C4_witness :
    ((⟨("  ~ resources \"a\" \"b\" \x7b\n" : String).data.take 4⟩ : String),
        ActionType.Update) ∈
      [("  + ", ActionType.Create), ("  ~ ", ActionType.Update),
       ("  - ", ActionType.Destroy), ("-/+ ", ActionType.DestroyThenCreate),
       ("+/- ", ActionType.DuplicateThenRemove)] ∧
    read_action_detail "xx  junk" = .error (.unexpectedType "xx  ") :=
  ⟨claim_C4_type_symbols.1 "  ~ resources \"a\" \"b\" \x7b\n" ActionType.Update
      "a" "b" (by decide),
   claim_C4_type_symbols.2.2.1 "xx  junk" (by decide)⟩

/-- Claim C5: when a header line arrives, the in-progress record is silently
dropped — the result of the loop does not depend on it at all — and parsing
continues with the new header; concretely, a header immediately followed by
another header produces only the second header's record, with no trace of the
first. -/
theorem claim_C5_silent_drop :
    (∀ (line : String) (input : List String) (cur1 cur2 : Action)
        (acc : List Action),
      strStartsWith line hdrLit = true →
      runLoop (line :: input) cur1 acc = runLoop (line :: input) cur2 acc) ∧
    mainParse ["Terraform will perform the following actions:\n", "\n",
        "  # first.a id\n", "  + resources \"r1\" \"n1\" \x7b\n",
        "  # second.b id\n", "  ~ resources \"r2\" \"n2\" \x7b\n", "      y = 2\n",
        "    \x7d\n", "Plan: x\n"]
      = .ok [{ typ := .Update, reference := "second.b", resource := "r2",
               name := "n2", content := ["      y = 2\n"] }] := by
  constructor
  · intro line input cur1 cur2 acc hh
    simp only [runLoop, hh, if_true]
  · decide

/-- Witness for C5: two different in-progress records give the same result at
a header line. -/
theorem claim_C5_witness :
    runLoop ["  # a b\n"] wact1 [] = runLoop ["  # a b\n"] wact2 [] :=
  claim_C5_silent_drop.1 "  # a b\n" [] wact1 wact2 [] (by decide)


/-- Claim C6: for well-formed reports — preamble lines free of the two marker
literals and of action syntax, the actions marker, a separator line, further
non-special lines, a nonempty sequence of well-formed blocks, and a plan line
or end of stream — the output is exactly the records of the closed blocks, in
input order, and its length equals the number of header lines whose block is
closed by a close-marker line before the next header or the plan line. -/
theorem claim_C6_record_count
    (pre1 : List String) (tf sep : String) (pre2 : List String)
    (b : Block) (bs : List Block) (term : List String)
    (hpre1 : ∀ l ∈ pre1, strStartsWith l tfLit = false ∧ strStartsWith l ncLit = false
      ∧ specialLine l = false)
    (htf : strStartsWith tf tfLit = true)
    (_hsep : specialLine sep = false)
    (hpre2 : ∀ l ∈ pre2, specialLine l = false)
    (hwf : (b :: bs).all Block.wfb = true)
    (hterm : termOk term = true) :
    mainParse (pre1 ++ tf :: sep :: (pre2 ++ (linesOfBlocks (b :: bs) ++ term)))
      = .ok (emittedActions true (b :: bs)) ∧
    (emittedActions true (b :: bs)).length = closedCount (b :: bs) := by
  refine ⟨mainParse_valid pre1 tf sep pre2 b bs term
      (fun l hl => ⟨(hpre1 l hl).1, (hpre1 l hl).2.1⟩) htf
      (fun l hl => ?_) hwf hterm, emittedActions_length _ true hwf⟩
  have hs := hpre2 l hl
  simp only [specialLine, Bool.or_eq_false_iff] at hs
  exact hs.1.1

/-- Witness for C6: a two-block report (one closed, one not) produces exactly
one record. -/
theorem claim_C6_witness :
    mainParse ([] ++ "Terraform will perform the following actions:\n" :: "\n" ::
        ([] ++ (linesOfBlocks [wb1, wb2] ++ ["Plan: 2 to add\n"])))
      = .ok (emittedActions true [wb1, wb2]) ∧
    (emittedActions true [wb1, wb2]).length = closedCount [wb1, wb2] :=
  claim_C6_record_count [] "Terraform will perform the following actions:\n" "\n"
    [] wb1 [wb2] ["Plan: 2 to add\n"] (by decide) (by decide) (by decide)
    (by decide) (by decide) (by decide)

/-- Claim C7 counterexample: a successful parse in which the (first) record's
content is not the list of raw lines lying strictly between its detail line
and its close marker — the detail line itself is included. -/
theorem claim_C7_counterexample :
    mainParse ["Terraform will perform the following actions:\n", "\n",
        "  # module.p.q id\n", "  + resources \"aws_iam_policy\" \"p\" \x7b\n",
        "      arn = 1\n", "    \x7d\n", "Plan: 1\n"]
      = .ok [{ typ := .Create, reference := "module.p.q",
               resource := "aws_iam_policy", name := "p",
               content := ["  + resources \"aws_iam_policy\" \"p\" \x7b\n",
                           "      arn = 1\n"] }] ∧
    ["  + resources \"aws_iam_policy\" \"p\" \x7b\n", "      arn = 1\n"]
      ≠ ["      arn = 1\n"] := by
  exact ⟨by decide, by decide⟩

/-- Claim C7 (amended): for well-formed reports, the content of every
finalized record except the first reproduces exactly the raw lines lying
strictly between its detail line and its close marker (its block's body
lines), in order, with nothing added or dropped; the first record's content
is the same list with its own detail line prepended (see the
counterexample). -/
theorem claim_C7_roundtrip
    (pre1 : List String) (tf sep : String) (pre2 : List String)
    (b : Block) (bs : List Block) (term : List String)
    (hpre1 : ∀ l ∈ pre1, strStartsWith l tfLit = false ∧ strStartsWith l ncLit = false
      ∧ specialLine l = false)
    (htf : strStartsWith tf tfLit = true)
    (_hsep : specialLine sep = false)
    (hpre2 : ∀ l ∈ pre2, specialLine l = false)
    (hwf : (b :: bs).all Block.wfb = true)
    (hterm : termOk term = true) :
    mainParse (pre1 ++ tf :: sep :: (pre2 ++ (linesOfBlocks (b :: bs) ++ term)))
      = .ok (emittedActions true (b :: bs)) ∧
    (emittedActions true (b :: bs)).map Action.content
      = emittedContents true (b :: bs) := by
  refine ⟨mainParse_valid pre1 tf sep pre2 b bs term
      (fun l hl => ⟨(hpre1 l hl).1, (hpre1 l hl).2.1⟩) htf
      (fun l hl => ?_) hwf hterm, emittedActions_contents _ true hwf⟩
  have hs := hpre2 l hl
  simp only [specialLine, Bool.or_eq_false_iff] at hs
  exact hs.1.1

/-- Witness for C7: contents of the emitted records of a concrete two-block
report. -/
theorem claim_C7_witness :
    mainParse ([] ++ "Terraform will perform the following actions:\n" :: "ignored\n" ::
        (["preline\n"] ++ (linesOfBlocks [wb1, wb2] ++ ["Plan: 2 to add\n"])))
      = .ok (emittedActions true [wb1, wb2]) ∧
    (emittedActions true [wb1, wb2]).map Action.content
      = emittedContents true [wb1, wb2] :=
  claim_C7_roundtrip [] "Terraform will perform the following actions:\n" "ignored\n"
    ["preline\n"] wb1 [wb2] ["Plan: 2 to add\n"] (by decide) (by decide) (by decide)
    (by decide) (by decide) (by decide)

/-- Claim C8 counterexample: end of stream in the middle of a body — after a
header and detail line, before any close marker and before any plan line — is
not an error: the run succeeds, returning the records accumulated so far
(here none), contrary to the claim that this is an error. -/
theorem claim_C8_counterexample :
    mainParse ["Terraform will perform the following actions:\n", "\n",
        "  # m.a id\n", "  + resources \"r\" \"n\" \x7b\n", "      x = 1\n"]
      = .ok [] := by
  decide

/-- Claim C8 (amended): end of stream inside the main parse loop always
terminates the run cleanly with the fully-closed records accumulated so far —
both when the input ends right after the last close marker (a well-formed
block with no trailing plan line, all records preserved) and when it ends
mid-body (the unclosed in-progress record is silently dropped, the closed
ones preserved); it is never an error. -/
theorem claim_C8_eof_clean
    (pre1 : List String) (tf sep : String) (pre2 : List String)
    (b : Block) (bs : List Block)
    (hpre1 : ∀ l ∈ pre1, strStartsWith l tfLit = false ∧ strStartsWith l ncLit = false)
    (htf : strStartsWith tf tfLit = true)
    (hpre2 : ∀ l ∈ pre2, strStartsWith l hdrLit = false)
    (hwf : (b :: bs).all Block.wfb = true) :
    mainParse (pre1 ++ tf :: sep :: (pre2 ++ linesOfBlocks (b :: bs)))
      = .ok (emittedActions true (b :: bs)) := by
  have h := mainParse_valid pre1 tf sep pre2 b bs [] hpre1 htf hpre2 hwf (by rfl)
  simpa using h

/-- Witness for C8: a closed block followed by an unclosed one, input ending
abruptly with no plan line: the closed record is returned, no error. -/
theorem claim_C8_witness :
    mainParse ([] ++ "Terraform will perform the following actions:\n" :: "\n" ::
        ([] ++ linesOfBlocks [wb1, wb2]))
      = .ok (emittedActions true [wb1, wb2]) :=
  claim_C8_eof_clean [] "Terraform will perform the following actions:\n" "\n" []
    wb1 [wb2] (by decide) (by decide) (by decide) (by decide)

/-- Claim C9: any input whose preamble reaches a line prefixed with the
no-changes literal before any line prefixed with the actions literal ends the
run successfully with zero records, whatever follows. -/
theorem claim_C9_no_changes
    (pre : List String) (nc : String) (trailing : List String)
    (hpre : ∀ l ∈ pre, strStartsWith l tfLit = false ∧ strStartsWith l ncLit = false)
    (hnc : strStartsWith nc ncLit = true) :
    mainParse (pre ++ nc :: trailing) = .ok [] := by
  unfold mainParse
  rw [skipPreamble_nc pre hpre hnc]

/-- Witness for C9: a concrete no-changes report with trailing garbage. -/
theorem claim_C9_witness :
    mainParse (["hello\n"] ++ "No changes. Infrastructure is up-to-date.\n" ::
        ["garbage\n"]) = .ok [] :=
  claim_C9_no_changes ["hello\n"] "No changes. Infrastructure is up-to-date.\n"
    ["garbage\n"] (by decide) (by decide)

/-- Claim C10: a second close-marker line arriving while a record is still
current — after it has already been appended once and before any new header
or plan line — appends the same record again, with the lines read between the
two close markers added to the duplicate's content, so one header can produce
more than one output record. -/
theorem claim_C10_duplicate_close
    (c1 c2 : String) (body : List String) (rest : List String)
    (cur : Action) (acc : List Action)
    (hc1 : strStartsWith c1 closeLit = true) (hc2 : strStartsWith c2 closeLit = true)
    (hbody : body.all (fun l => !specialLine l) = true) :
    runLoop (c1 :: (body ++ c2 :: rest)) cur acc
      = runLoop rest { cur with content := cur.content ++ body }
          (acc ++ [cur, { cur with content := cur.content ++ body }]) := by
  rw [runLoop_close hc1]
  rw [runLoop_body body _ _ _ hbody]
  rw [runLoop_close hc2]
  simp

/-- Witness for C10: two close markers with a line between them duplicate the
current record. -/
theorem claim_C10_witness :
    runLoop ["    \x7d\n", "      between\n", "    \x7d\n"] wact1 []
      = runLoop [] { wact1 with content := wact1.content ++ ["      between\n"] }
          ([] ++ [wact1, { wact1 with content := wact1.content ++ ["      between\n"] }]) :=
  claim_C10_duplicate_close "    \x7d\n" "    \x7d\n" ["      between\n"] [] wact1 []
    (by decide) (by decide) (by decide)

end VP
